import Mathlib

/-!
Verification of the environment layer of the MADDPG_avoid_obstacles repository
(`tf2marl/multiagent/environment.py`): shallow embedding of the action-space
composition, the action decoder `MultiAgentEnv._set_action`, the step/reset
orchestration, the reward aggregation, and the `BatchMultiAgentEnv` wrapper.

Numbers are modelled as rationals; numpy arrays as lists of rationals; Python
runtime failures (IndexError, TypeError, ValueError, AssertionError) as values
of an error type returned through `Except`.
-/

/-- Runtime failures of the embedded code.  `actionShapeError` stands for the
failure of the final `assert len(action) == 0` in `_set_action`;
`configError` for the construction-time failure `total_action_space[0]` on an
empty list; `typeError` for failed pair-unpacking of a bare scalar/bool and
for calling a `None` callback; `indexError` for out-of-range indexing;
`valueError` for `np.argmax` on an empty array. -/
inductive Err where
  | indexError
  | typeError
  | valueError
  | actionShapeError
  | configError
deriving DecidableEq

/-- Whether an `Except` computation succeeded. -/
def exceptOk {α : Type} : Except Err α → Bool
  | .ok _ => true
  | .error _ => false

/-- A policy agent, with the capability flags and fields `_set_action` reads
(`movable`, `silent`, `accel`, `u_range`) and its current action commands
`action.u` / `action.c`. -/
structure Agent where
  movable : Bool
  silent : Bool
  accel : Option ℚ
  uRange : ℚ
  actionU : List ℚ
  actionC : List ℚ
deriving DecidableEq

/-- The three decoding-mode flags fixed at construction
(`discrete_action_space`, `discrete_action_input`, `force_discrete_action`).
In this program the first is hardcoded `true`, the second hardcoded `false`,
and the third is taken from the world. -/
structure DecCfg where
  discreteActionSpace : Bool
  discreteActionInput : Bool
  forceDiscreteAction : Bool
deriving DecidableEq

/-- Declarative action spaces: `gym.spaces.Discrete`, `gym.spaces.Box`,
the local `MultiDiscrete` (a list of inclusive `(low, high)` ranges), and
`gym.spaces.Tuple`. -/
inductive ActSpace where
  | discrete (n : ℕ)
  | box (low high : ℚ) (dim : ℕ)
  | multiDiscrete (ranges : List (ℤ × ℤ))
  | tuple (ts : List ActSpace)

/-- Embeds `isinstance(act_space, spaces.Discrete)`. -/
def ActSpace.isDiscrete : ActSpace → Bool
  | .discrete _ => true
  | _ => false

/-- The `.n` attribute of a `Discrete` space (only read on discrete spaces). -/
def ActSpace.discreteN : ActSpace → ℕ
  | .discrete n => n
  | _ => 0

/-- Embeds `np.argmax` over a nonempty scanned tail: first index of the maximum
(a later element replaces the running best only if strictly greater). -/
def argmaxAux (l : List ℚ) (i best : ℕ) (bv : ℚ) : ℕ :=
  match l with
  | [] => best
  | x :: xs => if bv < x then argmaxAux xs (i + 1) i x else argmaxAux xs (i + 1) best bv

/-- Embeds `np.argmax`: `none` on an empty array (numpy raises ValueError there). -/
def argmax (l : List ℚ) : Option ℕ :=
  match l with
  | [] => none
  | x :: xs => some (argmaxAux xs 1 0 x)

/-- The vector produced by `action[0][:] = 0.0; action[0][d] = 1.0`:
length-`n` one-hot with the single 1 at index `d`. -/
def oneHot : ℕ → ℕ → List ℚ
  | 0, _ => []
  | n + 1, 0 => 1 :: List.replicate n 0
  | n + 1, d + 1 => 0 :: oneHot n d

/-- Python sequence indexing `l[i]` for a nonnegative literal index:
IndexError when out of range. -/
def pyGet {α : Type} (l : List α) (i : ℕ) : Except Err α :=
  match l.get? i with
  | some x => .ok x
  | none => .error .indexError

/-- The 16-entry direction lookup of the `discrete_action_input` branch of
`_set_action` (lines 181-196): `d = 0..15` maps to the written `(u[0], u[1])`
pair; any other `d` falls through every `elif` and leaves the zero vector. -/
def table16 (d : ℕ) : ℚ × ℚ :=
  match d with
  | 0 => (0, 1)
  | 1 => (1, 1)
  | 2 => (1, 0)
  | 3 => (1, -1)
  | 4 => (0, -1)
  | 5 => (-1, -1)
  | 6 => (-1, 0)
  | 7 => (-1, 1)
  | 8 => (0, 1/2)
  | 9 => (1/2, 1/2)
  | 10 => (1/2, 0)
  | 11 => (1/2, -1/2)
  | 12 => (0, -1/2)
  | 13 => (-1/2, -1/2)
  | 14 => (-1/2, 0)
  | 15 => (-1/2, 1/2)
  | _ => (0, 0)

/-- Physical decode in `discrete_action_input` mode: `d = np.argmax(action[0])`,
then the 16-way table writes `u[0]` and `u[1]` (IndexError when `dim_p < 2`);
a `d` outside `0..15` writes nothing and leaves the zero vector. -/
def physInput (dimP : ℕ) (seg : List ℚ) : Except Err (List ℚ) :=
  match argmax seg with
  | none => .error .valueError
  | some d =>
    if d < 16 then
      if 2 ≤ dimP then
        .ok ([(table16 d).1, (table16 d).2] ++ List.replicate (dimP - 2) 0)
      else .error .indexError
    else .ok (List.replicate dimP 0)

/-- The `force_discrete_action` collapse: `d = np.argmax(action[0]);
action[0][:] = 0.0; action[0][d] = 1.0`. -/
def collapse (seg : List ℚ) : Except Err (List ℚ) :=
  match argmax seg with
  | none => .error .valueError
  | some d => .ok (oneHot seg.length d)

/-- Physical decode in the `discrete_action_space` branch:
`u[0] += action[0][1] - action[0][2]; u[1] += action[0][3] - action[0][4]`
on the freshly zeroed vector (IndexError when the sub-vector is shorter than
5 or when `dim_p < 2`). -/
def physDiscrete (dimP : ℕ) (seg : List ℚ) : Except Err (List ℚ) :=
  match seg.get? 1, seg.get? 2, seg.get? 3, seg.get? 4 with
  | some a1, some a2, some a3, some a4 =>
    if 2 ≤ dimP then
      .ok ([a1 - a2, a3 - a4] ++ List.replicate (dimP - 2) 0)
    else .error .indexError
  | _, _, _, _ => .error .indexError

/-- The whole movable branch of `_set_action` (lines 177-210): pick the
decoding sub-branch from the mode flags, then scale by
`sensitivity = agent.accel if agent.accel is not None else 5.0`. -/
def physCommand (cfg : DecCfg) (dimP : ℕ) (accel : Option ℚ) (seg : List ℚ) :
    Except Err (List ℚ) :=
  let base : Except Err (List ℚ) :=
    if cfg.discreteActionInput then physInput dimP seg
    else
      match (if cfg.forceDiscreteAction then collapse seg else .ok seg) with
      | .error e => .error e
      | .ok s => if cfg.discreteActionSpace then physDiscrete dimP s else .ok s
  match base with
  | .error e => .error e
  | .ok u => .ok (u.map (fun x => x * accel.getD 5))

/-- The communication branch of `_set_action` (lines 213-218).  In
`discrete_action_input` mode the code runs `agent.action.c[action[0]] = 1.0`;
`action[0]` is a float array sliced from the raw action vector, and numpy
rejects float arrays as indices (IndexError).  That mode is disabled in this
program (`discrete_action_input` is hardcoded `False` at construction). -/
def commCommand (cfg : DecCfg) (seg : List ℚ) : Except Err (List ℚ) :=
  if cfg.discreteActionInput then .error .indexError else .ok seg

/-- Segment lengths of a `MultiDiscrete` space:
`size = action_space.high - action_space.low + 1` per declared range. -/
def sizesOf (ranges : List (ℤ × ℤ)) : List ℕ :=
  ranges.map (fun r => (r.2 - r.1 + 1).toNat)

/-- The splitting loop of `_set_action`:
`for s in size: act.append(action[index:(index+s)]); index += s`.
Python slicing truncates at the end of the vector. -/
def splitSegs (sizes : List ℕ) (idx : ℕ) (a : List ℚ) : List (List ℚ) :=
  match sizes with
  | [] => []
  | s :: rest => ((a.drop idx).take s) :: splitSegs rest (idx + s) a

/-- Lines 164-173 of `_set_action`: a `MultiDiscrete` action is split into
per-range sub-segments; any other action is wrapped as a single segment. -/
def splitAction (space : ActSpace) (action : List ℚ) : List (List ℚ) :=
  match space with
  | .multiDiscrete ranges => splitSegs (sizesOf ranges) 0 action
  | _ => [action]

/-- Number of active sub-spaces of an agent: physical iff movable,
communication iff not silent. -/
def activeCount (movable silent : Bool) : ℕ :=
  (if movable then 1 else 0) + (if silent then 0 else 1)

/-- Embeds `MultiAgentEnv._set_action` (lines 160-221).  The previous commands
`_prevU`/`_prevC` are overwritten with zero vectors before any branch runs
(lines 161-162), so they are dead on every path.  Returns the new
`(action.u, action.c)` pair, or the error the Python code raises: the final
`assert len(action) == 0` becomes `actionShapeError` when sub-segments remain
unconsumed. -/
def setAction (cfg : DecCfg) (dimP dimC : ℕ) (movable silent : Bool)
    (accel : Option ℚ) (_prevU _prevC : List ℚ) (space : ActSpace)
    (action : List ℚ) : Except Err (List ℚ × List ℚ) :=
  let u0 : List ℚ := List.replicate dimP 0
  let c0 : List ℚ := List.replicate dimC 0
  let segs := splitAction space action
  let physStep : Except Err (List ℚ × List (List ℚ)) :=
    if movable then
      match segs with
      | [] => .error .indexError
      | s :: rest =>
        match physCommand cfg dimP accel s with
        | .error e => .error e
        | .ok u => .ok (u, rest)
    else .ok (u0, segs)
  match physStep with
  | .error e => .error e
  | .ok (u, segs1) =>
    let commStep : Except Err (List ℚ × List (List ℚ)) :=
      if silent then .ok (c0, segs1)
      else
        match segs1 with
        | [] => .error .indexError
        | s :: rest =>
          match commCommand cfg s with
          | .error e => .error e
          | .ok c => .ok (c, rest)
    match commStep with
    | .error e => .error e
    | .ok (c, segs2) =>
      match segs2 with
      | [] => .ok (u, c)
      | _ :: _ => .error .actionShapeError

/-- Physical action space declared at construction (lines 48-53). -/
def uSpace (cfg : DecCfg) (uRange : ℚ) (dimP : ℕ) : ActSpace :=
  if cfg.discreteActionSpace && !cfg.discreteActionInput then
    .discrete (dimP * 2 + 1)
  else if cfg.discreteActionSpace && cfg.discreteActionInput then
    .discrete 16
  else .box (-uRange) uRange dimP

/-- Communication action space declared at construction (lines 57-60). -/
def cSpace (cfg : DecCfg) (dimC : ℕ) : ActSpace :=
  if cfg.discreteActionSpace then .discrete dimC else .box 0 1 dimC

/-- Per-agent action-space composition (lines 46-72): physical sub-space iff
movable, communication sub-space iff not silent; more than one sub-space
packs into `MultiDiscrete` (all discrete) or `Tuple`; a single sub-space is
used directly; an empty composition fails (`total_action_space[0]` on an
empty list). -/
def buildAgentSpace (cfg : DecCfg) (dimP dimC : ℕ) (ag : Agent) :
    Except Err ActSpace :=
  let total : List ActSpace :=
    (if ag.movable then [uSpace cfg ag.uRange dimP] else []) ++
      (if !ag.silent then [cSpace cfg dimC] else [])
  if 1 < total.length then
    if total.all ActSpace.isDiscrete then
      .ok (.multiDiscrete (total.map (fun s => ((0 : ℤ), (s.discreteN : ℤ) - 1))))
    else .ok (.tuple total)
  else
    match total with
    | [s] => .ok s
    | _ => .error .configError

/-- The construction loop over all policy agents: the first failing agent
aborts construction. -/
def buildActionSpaces (cfg : DecCfg) (dimP dimC : ℕ) (ags : List Agent) :
    Except Err (List ActSpace) :=
  match ags with
  | [] => .ok []
  | a :: rest =>
    match buildAgentSpace cfg dimP dimC a with
    | .error e => .error e
    | .ok s =>
      match buildActionSpaces cfg dimP dimC rest with
      | .error e => .error e
      | .ok l => .ok (s :: l)

/-- What a reward callback returns, as the pair-unpacking in `step` sees it:
either a bare scalar (what `_get_reward` yields when the callback is `None`)
or the `(reward, reward_list)` pair a scenario callback yields. -/
inductive RVal where
  | scalar (x : ℚ)
  | pair (x : ℚ) (l : List ℚ)

/-- What a done callback returns: a bare boolean (the `None`-callback default)
or a `(done, info)` pair. -/
inductive DVal (Info : Type) where
  | single (b : Bool)
  | pair (b : Bool) (i : Info)

/-- Modelled from the spec: the World class (`tf2marl/multiagent/core.py`) is
not under `src/`.  Per the data model of the spec, the World owns the policy-agent
list and the episode counter `num_episodes`, which is incremented on the
`reset()` of the environment and is not touched by the physics transition; `phys`
abstracts all remaining world state.  `allAgentCount` is `len(world.agents)`
(policy plus scripted entities), which sizes the reward-history list on
reset. -/
structure WState (P : Type) where
  numEpisodes : ℕ
  agents : List Agent
  allAgentCount : ℕ
  phys : P

/-- Modelled from the spec: the scenario callbacks and `World.step` are
external collaborators (not under `src/`).  `resetCb` stands for
`reset_callback` (re-initializes the world and yields episode artifacts),
`rewardCb`/`obsCb`/`doneCb` for the per-agent callbacks, and `wstep` for
`World.step`, which advances only the physical state `P` from the
freshly decoded action commands. -/
structure Scenario (P Info Art : Type) where
  resetCb : Option (P → P × Art)
  rewardCb : Option (Agent → WState P → RVal)
  obsCb : Option (Agent → WState P → List ℚ)
  doneCb : Option (Agent → WState P → DVal Info)
  wstep : List Agent → P → P

/-- The mutable fields of a `MultiAgentEnv` instance that step/reset touch,
plus the configuration fixed at construction. -/
structure EnvState (P Art : Type) where
  world : WState P
  cfg : DecCfg
  dimP : ℕ
  dimC : ℕ
  sharedReward : Bool
  n : ℕ
  actionSpaces : List ActSpace
  rewardListAll : List (List (List ℚ))
  artifacts : Option Art

/-- Embeds `_get_obs`: zero-length array when the observation callback is absent. -/
def getObs {P Info Art : Type} (sc : Scenario P Info Art) (a : Agent)
    (w : WState P) : List ℚ :=
  match sc.obsCb with
  | none => []
  | some f => f a w

/-- Embeds `_get_reward`: the bare scalar `0.0` when the callback is absent. -/
def getReward {P Info Art : Type} (sc : Scenario P Info Art) (a : Agent)
    (w : WState P) : RVal :=
  match sc.rewardCb with
  | none => .scalar 0
  | some f => f a w

/-- Embeds `_get_done`: the bare boolean `False` when the callback is absent. -/
def getDone {P Info Art : Type} (sc : Scenario P Info Art) (a : Agent)
    (w : WState P) : DVal Info :=
  match sc.doneCb with
  | none => .single false
  | some f => f a w

/-- Embeds `reward, reward_list = ...`: unpacking a bare scalar raises TypeError. -/
def unpackR (v : RVal) : Except Err (ℚ × List ℚ) :=
  match v with
  | .scalar _ => .error .typeError
  | .pair x l => .ok (x, l)

/-- Embeds `done, info = ...`: unpacking a bare boolean raises TypeError. -/
def unpackD {Info : Type} (v : DVal Info) : Except Err (Bool × Info) :=
  match v with
  | .single _ => .error .typeError
  | .pair b i => .ok (b, i)

/-- Embeds `np.round` of one value to even at half (round half to even). -/
def roundEven (x : ℚ) : ℤ :=
  let f := ⌊x⌋
  if x - f < 1/2 then f
  else if (1 : ℚ)/2 < x - f then f + 1
  else if f % 2 = 0 then f else f + 1

/-- Embeds `np.round(. , decimals=2)` on one element. -/
def round2 (x : ℚ) : ℚ := (roundEven (x * 100) : ℚ) / 100

/-- The reward post-processing of `step` (lines 112-115):
`reward = np.sum(reward_n); if self.shared_reward: reward_n = [reward] * self.n`. -/
def aggregateRewards (shared : Bool) (n : ℕ) (raw : List ℚ) : List ℚ :=
  if shared then List.replicate n raw.sum else raw

/-- The decode loop of `step` (lines 95-96): for each agent in order,
`self._set_action(action_n[i], agent, self.action_space[i])`, writing the
decoded commands into the agent.  The first failure aborts the step. -/
def decodeAllAux (cfg : DecCfg) (dimP dimC : ℕ) (spaces : List ActSpace)
    (actions : List (List ℚ)) (i : ℕ) (ags : List Agent) :
    Except Err (List Agent) :=
  match ags with
  | [] => .ok []
  | a :: rest =>
    match pyGet actions i with
    | .error e => .error e
    | .ok act =>
      match pyGet spaces i with
      | .error e => .error e
      | .ok sp =>
        match setAction cfg dimP dimC a.movable a.silent a.accel a.actionU
            a.actionC sp act with
        | .error e => .error e
        | .ok (u, c) =>
          match decodeAllAux cfg dimP dimC spaces actions (i + 1) rest with
          | .error e => .error e
          | .ok l => .ok ({ a with actionU := u, actionC := c } :: l)

/-- The collection loop of `step` (lines 100-111): per agent, observation,
reward pair-unpacking, done pair-unpacking, appending the rounded reward
breakdown to `reward_list_all[i]`, and the info. -/
def collectAux {P Info Art : Type} (sc : Scenario P Info Art) (w : WState P)
    (i : ℕ) (ags : List Agent) (rla : List (List (List ℚ))) :
    Except Err (List (List ℚ) × List ℚ × List Bool × List Info ×
      List (List (List ℚ))) :=
  match ags with
  | [] => .ok ([], [], [], [], rla)
  | a :: rest =>
    let obs := getObs sc a w
    match unpackR (getReward sc a w) with
    | .error e => .error e
    | .ok (r, rlist) =>
      match unpackD (getDone sc a w) with
      | .error e => .error e
      | .ok (d, info) =>
        match pyGet rla i with
        | .error e => .error e
        | .ok cur =>
          match collectAux sc w (i + 1) rest (rla.set i (cur ++ [rlist.map round2])) with
          | .error e => .error e
          | .ok (os, rs, ds, infos, rlaF) =>
            .ok (obs :: os, r :: rs, d :: ds, info :: infos, rlaF)

/-- Embeds `MultiAgentEnv.step` (lines 88-117): decode the action of every agent, advance
the world, collect per-agent observations/rewards/dones/infos, then apply the
shared-reward aggregation. -/
def stepEnv {P Info Art : Type} (sc : Scenario P Info Art)
    (env : EnvState P Art) (actions : List (List ℚ)) :
    Except Err (List (List ℚ) × List ℚ × List Bool × List Info ×
      EnvState P Art) :=
  match decodeAllAux env.cfg env.dimP env.dimC env.actionSpaces actions 0
      env.world.agents with
  | .error e => .error e
  | .ok ags2 =>
    let w2 : WState P :=
      { env.world with agents := ags2, phys := sc.wstep ags2 env.world.phys }
    match collectAux sc w2 0 ags2 env.rewardListAll with
    | .error e => .error e
    | .ok (os, raw, ds, infos, rla2) =>
      .ok (os, aggregateRewards env.sharedReward env.n raw, ds, infos,
        { env with world := w2, rewardListAll := rla2 })

/-- Embeds `MultiAgentEnv.reset` (lines 119-132): run the reset callback (TypeError
when it is `None`), clear the reward history (one empty list per world
entity), collect one observation per policy agent, and increment the episode counter of the World by one. -/
def resetEnv {P Info Art : Type} (sc : Scenario P Info Art)
    (env : EnvState P Art) : Except Err (List (List ℚ) × EnvState P Art) :=
  match sc.resetCb with
  | none => .error .typeError
  | some f =>
    let pa := f env.world.phys
    let w1 : WState P := { env.world with phys := pa.1 }
    let rla := List.replicate env.world.allAgentCount ([] : List (List ℚ))
    let obs := w1.agents.map (fun a => getObs sc a w1)
    let w2 : WState P := { w1 with numEpisodes := w1.numEpisodes + 1 }
    .ok (obs,
      { env with world := w2, rewardListAll := rla, artifacts := some pa.2 })

/-- A sequence of `step` calls; a step that raises leaves the tracked state
unchanged (in particular the episode counter, which `step` never touches). -/
def runSteps {P Info Art : Type} (sc : Scenario P Info Art)
    (l : List (List (List ℚ))) (env : EnvState P Art) : EnvState P Art :=
  l.foldl (fun e acts =>
    match stepEnv sc e acts with
    | .ok (_, _, _, _, e2) => e2
    | .error _ => e) env

/-- A sub-environment as `BatchMultiAgentEnv` sees it: an agent count `n` and
the delegated `step` at the current tick (`env.step(slice, time)`), returning
per-agent observations, rewards and dones. -/
structure SubEnv (A O : Type) where
  n : ℕ
  stp : List A → List O × List ℚ × List Bool

/-- The loop of `BatchMultiAgentEnv.step` (lines 392-399): running offset `i`,
slice `action_n[i:(i+env.n)]` per sub-environment, concatenate the results. -/
def batchStepAux {A O : Type} (envs : List (SubEnv A O)) (i : ℕ)
    (acts : List A) : List O × List ℚ × List Bool :=
  match envs with
  | [] => ([], [], [])
  | e :: rest =>
    let r1 := e.stp ((acts.drop i).take e.n)
    let r2 := batchStepAux rest (i + e.n) acts
    (r1.1 ++ r2.1, r1.2.1 ++ r2.2.1, r1.2.2 ++ r2.2.2)

/-- Embeds `BatchMultiAgentEnv.step`: the loop started at offset 0. -/
def batchStep {A O : Type} (envs : List (SubEnv A O)) (acts : List A) :
    List O × List ℚ × List Bool :=
  batchStepAux envs 0 acts

/-- Embeds `BatchMultiAgentEnv.n`: the sum of sub-environment agent counts. -/
def batchN {A O : Type} (envs : List (SubEnv A O)) : ℕ :=
  (envs.map (fun e => e.n)).sum

/-- A sub-environment that reports the action slice it received as its
observations (zero rewards, no terminations). -/
def echoEnv (n : ℕ) : SubEnv ℚ ℚ :=
  ⟨n, fun a => (a, a.map (fun _ => 0), a.map (fun _ => false))⟩

/-- A sub-environment returning fixed-length results, as `MultiAgentEnv.step`
does (one entry per agent). -/
def constEnv (n : ℕ) : SubEnv ℚ ℚ :=
  ⟨n, fun _ => (List.replicate n 0, List.replicate n 0, List.replicate n false)⟩

instance {e a : Type} [DecidableEq e] [DecidableEq a] : DecidableEq (Except e a) := fun x y =>
  match x, y with
  | .ok u, .ok v =>
    if h : u = v then isTrue (by rw [h]) else isFalse (by intro he; cases he; exact h rfl)
  | .error u, .error v =>
    if h : u = v then isTrue (by rw [h]) else isFalse (by intro he; cases he; exact h rfl)
  | .ok _, .error _ => isFalse (by intro he; cases he)
  | .error _, .ok _ => isFalse (by intro he; cases he)

lemma splitSegs_length (sz : List ℕ) (idx : ℕ) (a : List ℚ) :
    (splitSegs sz idx a).length = sz.length := by
  induction sz generalizing idx with
  | nil => rfl
  | cons s rest ih => simp [splitSegs, ih]

/-- C2 (confirmed): in the default mode (`discrete_action_space` true, input
and force modes off), the decoded physical command of a movable agent is the
5-way combination `(vec[1]-vec[2], vec[3]-vec[4])` scaled by the sensitivity of the agent (`accel` when set, else 5). -/
theorem physCommand_discrete_formula (dimP : ℕ) (accel : Option ℚ)
    (a0 a1 a2 a3 a4 : ℚ) (rest : List ℚ) (h : 2 ≤ dimP) :
    physCommand ⟨true, false, false⟩ dimP accel (a0 :: a1 :: a2 :: a3 :: a4 :: rest)
      = .ok ((a1 - a2) * accel.getD 5 :: (a3 - a4) * accel.getD 5 ::
          List.replicate (dimP - 2) 0) := by
  simp [physCommand, physDiscrete, h, List.map_replicate]

/-- Witness for C2 at the example of the spec `[*,1,0,0,0]` with `accel = 3`:
the command is `(sensitivity, 0)`. -/
theorem physCommand_discrete_formula_witness :
    physCommand ⟨true, false, false⟩ 2 (some 3) [0, 1, 0, 0, 0] = .ok [3, 0] := by
  have h := physCommand_discrete_formula 2 (some 3) 0 1 0 0 0 [] (by norm_num)
  simpa using h

/-- C3 (confirmed): with `shared_reward` true every returned reward entry is
the sum of the raw per-agent rewards; with it false the raw rewards are
returned untouched. -/
theorem aggregateRewards_spec :
    (∀ (n : ℕ) (raw : List ℚ) (x : ℚ), x ∈ aggregateRewards true n raw → x = raw.sum)
    ∧ (∀ (n : ℕ) (raw : List ℚ), aggregateRewards false n raw = raw) := by
  constructor
  · intro n raw x hx
    simp only [aggregateRewards, if_pos] at hx
    exact List.eq_of_mem_replicate hx
  · intro n raw
    rfl

/-- Witness for C3 on `raw = [1,2,3]`, `n = 3`. -/
theorem aggregateRewards_spec_witness :
    ((6 : ℚ) = ([1, 2, 3] : List ℚ).sum)
    ∧ aggregateRewards false 3 [1, 2, 3] = [1, 2, 3] :=
  ⟨aggregateRewards_spec.1 3 [1, 2, 3] 6 (by norm_num [aggregateRewards]),
   aggregateRewards_spec.2 3 [1, 2, 3]⟩

/-- C10 (confirmed): `_set_action` overwrites both commands before any branch:
its result never depends on the previous commands, a silent agent always ends
with the zero communication command, and a non-movable agent always ends with
the zero physical command. -/
theorem setAction_overwrites :
    (∀ (cfg : DecCfg) (dimP dimC : ℕ) (movable silent : Bool) (accel : Option ℚ)
        (p1 c1 p2 c2 : List ℚ) (space : ActSpace) (action : List ℚ),
        setAction cfg dimP dimC movable silent accel p1 c1 space action
          = setAction cfg dimP dimC movable silent accel p2 c2 space action)
    ∧ (∀ (cfg : DecCfg) (dimP dimC : ℕ) (movable : Bool) (accel : Option ℚ)
        (pU pC : List ℚ) (space : ActSpace) (action : List ℚ) (u c : List ℚ),
        setAction cfg dimP dimC movable true accel pU pC space action = .ok (u, c) →
        c = List.replicate dimC 0)
    ∧ (∀ (cfg : DecCfg) (dimP dimC : ℕ) (silent : Bool) (accel : Option ℚ)
        (pU pC : List ℚ) (space : ActSpace) (action : List ℚ) (u c : List ℚ),
        setAction cfg dimP dimC false silent accel pU pC space action = .ok (u, c) →
        u = List.replicate dimP 0) := by
  refine ⟨fun _ _ _ _ _ _ _ _ _ _ _ _ => rfl, ?_, ?_⟩
  · intro cfg dimP dimC movable accel pU pC space action u c h
    simp only [setAction] at h
    split at h
    · simp at h
    · simp only [if_true] at h
      split at h
      · simp only [Except.ok.injEq, Prod.mk.injEq] at h
        exact h.2.symm
      · simp at h
  · intro cfg dimP dimC silent accel pU pC space action u c h
    simp only [setAction, Bool.false_eq_true, if_false] at h
    split at h
    · simp at h
    · split at h
      · simp only [Except.ok.injEq, Prod.mk.injEq] at h
        exact h.1.symm
      · simp at h

/-- Witness for C10: a movable silent agent ends with the zero communication
command, and a non-movable speaking agent ends with the zero physical
command, whatever the previous commands were. -/
theorem setAction_overwrites_witness :
    ([0, 0, 0] : List ℚ) = List.replicate 3 (0 : ℚ)
    ∧ ([0, 0] : List ℚ) = List.replicate 2 (0 : ℚ) :=
  ⟨setAction_overwrites.2.1 ⟨true, false, false⟩ 2 3 true none [9, 9] [8, 8, 8]
      (.discrete 5) [0, 1, 0, 0, 0] [5, 0] [0, 0, 0]
      (by norm_num [setAction, splitAction, physCommand, physDiscrete, List.replicate]),
   setAction_overwrites.2.2 ⟨true, false, false⟩ 2 2 false none [9, 9] [8, 8]
      (.discrete 2) [1, 0] [0, 0] [1, 0]
      (by norm_num [setAction, splitAction, commCommand, List.replicate])⟩

lemma batchStepAux_shift {A O : Type} (envs : List (SubEnv A O)) (i : ℕ)
    (acts : List A) : batchStepAux envs i acts = batchStepAux envs 0 (acts.drop i) := by
  induction envs generalizing i acts with
  | nil => rfl
  | cons e rest ih =>
    simp only [batchStepAux, List.drop_zero, List.drop_drop]
    rw [ih (i + e.n) acts, ih (0 + e.n) (acts.drop i), List.drop_drop]
    simp [Nat.add_comm]

lemma batchStep_cons {A O : Type} (e : SubEnv A O) (envs : List (SubEnv A O))
    (acts : List A) :
    batchStep (e :: envs) acts
      = ((e.stp (acts.take e.n)).1 ++ (batchStep envs (acts.drop e.n)).1,
         (e.stp (acts.take e.n)).2.1 ++ (batchStep envs (acts.drop e.n)).2.1,
         (e.stp (acts.take e.n)).2.2 ++ (batchStep envs (acts.drop e.n)).2.2) := by
  show batchStepAux (e :: envs) 0 acts = _
  simp only [batchStepAux, List.drop_zero, Nat.zero_add]
  rw [batchStepAux_shift envs e.n acts]
  rfl

/-- C7 (confirmed): `BatchMultiAgentEnv.step` hands the first sub-environment
the first `n` joint actions and the remaining sub-environments the rest, in
order, and concatenates the delegated observation, reward and done sequences;
when every sub-environment returns one entry per agent the concatenated
lengths equal `n`, the sum of the agent counts.  The two sub-environment
scenario with counts 2 and 3 splits a length-5 joint action as `[0:2]` and
`[2:5]` and returns observations of length 5 in order. -/
theorem batchStep_spec :
    (∀ {A O : Type} (e : SubEnv A O) (envs : List (SubEnv A O)) (acts : List A),
        batchStep (e :: envs) acts
          = ((e.stp (acts.take e.n)).1 ++ (batchStep envs (acts.drop e.n)).1,
             (e.stp (acts.take e.n)).2.1 ++ (batchStep envs (acts.drop e.n)).2.1,
             (e.stp (acts.take e.n)).2.2 ++ (batchStep envs (acts.drop e.n)).2.2))
    ∧ (∀ {A O : Type} (envs : List (SubEnv A O)) (acts : List A),
        (∀ e ∈ envs, ∀ a : List A,
            (e.stp a).1.length = e.n ∧ (e.stp a).2.1.length = e.n
              ∧ (e.stp a).2.2.length = e.n) →
        (batchStep envs acts).1.length = batchN envs
          ∧ (batchStep envs acts).2.1.length = batchN envs
          ∧ (batchStep envs acts).2.2.length = batchN envs)
    ∧ batchStep [echoEnv 2, echoEnv 3] [1, 2, 3, 4, 5]
        = ([1, 2, 3, 4, 5], [0, 0, 0, 0, 0], [false, false, false, false, false]) := by
  refine ⟨fun e envs acts => batchStep_cons e envs acts, ?_,
    by norm_num [batchStep, batchStepAux, echoEnv, batchN, List.replicate]⟩
  intro A O envs acts hlen
  induction envs generalizing acts with
  | nil => simp [batchStep, batchStepAux, batchN]
  | cons e rest ih =>
    have he := hlen e (by simp) (acts.take e.n)
    have hih := ih (acts.drop e.n) (fun f hf => hlen f (by simp [hf]))
    rw [batchStep_cons]
    simp only [batchN, List.map_cons, List.sum_cons, List.length_append] at hih ⊢
    exact ⟨by rw [he.1, hih.1], by rw [he.2.1, hih.2.1], by rw [he.2.2, hih.2.2]⟩

/-- Witness for C7: two fixed-output sub-environments with counts 2 and 3
give concatenated result sequences of length 5. -/
theorem batchStep_spec_witness :
    (batchStep [constEnv 2, constEnv 3] [9, 9, 9, 9, 9]).1.length
        = batchN [constEnv 2, constEnv 3]
      ∧ (batchStep [constEnv 2, constEnv 3] [9, 9, 9, 9, 9]).2.1.length
        = batchN [constEnv 2, constEnv 3]
      ∧ (batchStep [constEnv 2, constEnv 3] [9, 9, 9, 9, 9]).2.2.length
        = batchN [constEnv 2, constEnv 3] :=
  batchStep_spec.2.1 [constEnv 2, constEnv 3] [9, 9, 9, 9, 9]
    (by
      intro e he a
      rcases List.mem_cons.mp he with rfl | he2
      · simp [constEnv]
      · rcases List.mem_cons.mp he2 with rfl | he3
        · simp [constEnv]
        · simp at he3)

lemma argmaxAux_lt (l : List ℚ) : ∀ (i best : ℕ) (bv : ℚ), best < i →
    argmaxAux l i best bv < i + l.length := by
  induction l with
  | nil => intro i best bv h; simpa [argmaxAux] using h
  | cons x xs ih =>
    intro i best bv h
    simp only [argmaxAux, List.length_cons]
    split
    · have := ih (i + 1) i x (by omega)
      omega
    · have := ih (i + 1) best bv (by omega)
      omega

lemma argmax_lt_length {l : List ℚ} {d : ℕ} (h : argmax l = some d) :
    d < l.length := by
  cases l with
  | nil => simp [argmax] at h
  | cons x xs =>
    simp only [argmax, Option.some.injEq] at h
    have := argmaxAux_lt xs 1 0 x (by omega)
    simp only [List.length_cons]
    omega

lemma oneHot_length (n d : ℕ) : (oneHot n d).length = n := by
  induction n generalizing d with
  | zero => rfl
  | succ m ih =>
    cases d with
    | zero => simp [oneHot]
    | succ e => simp [oneHot, ih e]

lemma argmaxAux_replicate_zero (k : ℕ) : ∀ (i best : ℕ) (bv : ℚ), 0 ≤ bv →
    argmaxAux (List.replicate k 0) i best bv = best := by
  induction k with
  | zero => intro i best bv _; rfl
  | succ m ih =>
    intro i best bv h
    simp only [List.replicate, argmaxAux]
    rw [if_neg (by linarith), ih (i + 1) best bv h]

lemma argmaxAux_oneHot (n d : ℕ) (h : d < n) : ∀ (i best : ℕ),
    argmaxAux (oneHot n d) i best 0 = i + d := by
  induction n generalizing d with
  | zero => omega
  | succ m ih =>
    intro i best
    cases d with
    | zero =>
      simp only [oneHot, argmaxAux]
      rw [if_pos (by norm_num), argmaxAux_replicate_zero m (i + 1) i 1 (by norm_num)]
      omega
    | succ e =>
      simp only [oneHot, argmaxAux, lt_self_iff_false, if_false]
      rw [ih e (by omega) (i + 1) best]
      omega

lemma argmax_oneHot {n d : ℕ} (h : d < n) : argmax (oneHot n d) = some d := by
  cases n with
  | zero => omega
  | succ m =>
    cases d with
    | zero =>
      simp only [oneHot, argmax, Option.some.injEq]
      exact argmaxAux_replicate_zero m 1 0 1 (by norm_num)
    | succ e =>
      simp only [oneHot, argmax, Option.some.injEq]
      rw [argmaxAux_oneHot m e (by omega) 1 0]
      omega

/-- C5 (confirmed): with `force_discrete_action` on (and input mode off),
decoding a physical sub-vector yields exactly what decoding the one-hot
vector at its arg-max index yields. -/
theorem physCommand_force_argmax (b : Bool) (dimP : ℕ) (accel : Option ℚ)
    (seg : List ℚ) (d : ℕ) (h : argmax seg = some d) :
    physCommand ⟨b, false, true⟩ dimP accel seg
      = physCommand ⟨b, false, true⟩ dimP accel (oneHot seg.length d) := by
  have hd : d < seg.length := argmax_lt_length h
  have h2 : argmax (oneHot seg.length d) = some d := argmax_oneHot hd
  simp only [physCommand, collapse, h, h2, if_true, if_false, oneHot_length,
    Bool.false_eq_true]

/-- Witness for C5 at the example of the spec: the continuous sub-vector
`[0.1, 0.9, 0.2]` decodes exactly as `[0, 1, 0]` does. -/
theorem physCommand_force_argmax_witness :
    physCommand ⟨true, false, true⟩ 2 none [1/10, 9/10, 2/10]
      = physCommand ⟨true, false, true⟩ 2 none [0, 1, 0] := by
  have h := physCommand_force_argmax true 2 none [1/10, 9/10, 2/10] 1
    (by norm_num [argmax, argmaxAux])
  have h2 : oneHot ([(1:ℚ)/10, 9/10, 2/10].length) 1 = [0, 1, 0] := by decide
  rw [h, h2]

/-- C4 counterexample: the 16-entry direction table contains no "stop" entry.
Its entries are exactly the 8 compass directions at component magnitudes 1
and 1/2, and none of the 16 is the zero vector, so the claimed
"plus a stop entry" is false of the code. -/
theorem table16_no_stop_entry :
    ((List.range 16).map table16 =
      [(0, 1), (1, 1), (1, 0), (1, -1), (0, -1), (-1, -1), (-1, 0), (-1, 1),
       (0, 1/2), (1/2, 1/2), (1/2, 0), (1/2, -1/2), (0, -1/2), (-1/2, -1/2),
       (-1/2, 0), (-1/2, 1/2)])
    ∧ ((List.range 16).all (fun d => table16 d != ((0 : ℚ), (0 : ℚ)))) = true := by
  constructor
  · simp [List.range_succ, table16]
  · rw [List.all_eq_true]
    intro d hd
    simp only [bne_iff_ne, ne_eq, decide_eq_true_eq]
    fin_cases hd <;> norm_num [table16, Prod.ext_iff]

/-- C4 amended (proved): in `discrete_action_input` mode the decoder takes the
arg-max index `d` of the physical sub-vector and, for `d < 16`, writes the
`d`-th entry of the fixed 16-entry direction table (8 compass directions at
component magnitudes 1 and 1/2, no stop entry) scaled by the sensitivity;
index 0 maps to `(0, 1)`; and the physical space declared for this mode is
`Discrete(16)`. -/
theorem physCommand_input_mode :
    (∀ (b f : Bool) (dimP : ℕ) (accel : Option ℚ) (seg : List ℚ) (d : ℕ),
        2 ≤ dimP → argmax seg = some d → d < 16 →
        physCommand ⟨b, true, f⟩ dimP accel seg
          = .ok ((table16 d).1 * accel.getD 5 :: (table16 d).2 * accel.getD 5 ::
              List.replicate (dimP - 2) 0))
    ∧ table16 0 = (0, 1)
    ∧ (∀ (f : Bool) (uR : ℚ) (dimP : ℕ),
        uSpace ⟨true, true, f⟩ uR dimP = .discrete 16) := by
  refine ⟨?_, rfl, fun f uR dimP => rfl⟩
  intro b f dimP accel seg d h2 hseg hd
  simp [physCommand, physInput, hseg, hd, h2, List.map_replicate]

/-- Witness for C4 at the one-hot input selecting index 0 (sensitivity 5):
the command is the table entry `(0, 1)` scaled to `(0, 5)`. -/
theorem physCommand_input_mode_witness :
    physCommand ⟨true, true, false⟩ 2 none (oneHot 16 0) = .ok [0, 5] := by
  have h := physCommand_input_mode.1 true false 2 none (oneHot 16 0) 0
    (by norm_num) (argmax_oneHot (by norm_num)) (by norm_num)
  simpa [table16] using h

/-- C1 counterexample: a movable, speaking agent with the declared
`MultiDiscrete([[0,4],[0,1]])` space (7 elements) decodes a flat vector of
8 elements without any error: the split truncates to the declared ranges and
the trailing extra element is silently dropped, so no ActionShapeError is
raised although the vector does not match the declared element count. -/
theorem setAction_overlong_ok :
    ((sizesOf [((0 : ℤ), (4 : ℤ)), ((0 : ℤ), (1 : ℤ))]).sum = 7)
    ∧ (([0, 1, 0, 0, 0, 1, 0, 99] : List ℚ).length = 8)
    ∧ setAction ⟨true, false, false⟩ 2 2 true false none [] []
        (.multiDiscrete [(0, 4), (0, 1)]) [0, 1, 0, 0, 0, 1, 0, 99]
        = .ok ([5, 0], [1, 0]) := by
  refine ⟨by decide, by decide, ?_⟩
  norm_num [setAction, splitAction, splitSegs, sizesOf, physCommand,
    physDiscrete, commCommand]
  decide

lemma physInput_ne_shape (dimP : ℕ) (seg : List ℚ) :
    physInput dimP seg ≠ .error .actionShapeError := by
  unfold physInput
  split
  · simp
  · split
    · split
      · simp
      · simp
    · simp

lemma collapse_ne_shape (seg : List ℚ) :
    collapse seg ≠ .error .actionShapeError := by
  unfold collapse
  split
  · simp
  · simp

lemma physDiscrete_ne_shape (dimP : ℕ) (seg : List ℚ) :
    physDiscrete dimP seg ≠ .error .actionShapeError := by
  unfold physDiscrete
  split
  · split
    · simp
    · simp
  · simp

lemma physCommand_ne_shape (cfg : DecCfg) (dimP : ℕ) (accel : Option ℚ)
    (seg : List ℚ) : physCommand cfg dimP accel seg ≠ .error .actionShapeError := by
  simp only [physCommand]
  split
  · rename_i e heq
    simp only [ne_eq, Except.error.injEq]
    intro he
    subst he
    revert heq
    split
    · intro heq
      exact physInput_ne_shape dimP seg heq
    · split
      · rename_i heq2
        intro heq
        simp only [Except.error.injEq] at heq
        subst heq
        revert heq2
        split
        · intro h2
          exact collapse_ne_shape seg h2
        · intro h2
          cases h2
      · intro heq
        revert heq
        split
        · intro heq
          exact physDiscrete_ne_shape dimP _ heq
        · intro heq
          cases heq
  · simp

lemma commCommand_ne_shape (cfg : DecCfg) (seg : List ℚ) :
    commCommand cfg seg ≠ .error .actionShapeError := by
  unfold commCommand
  split
  · simp
  · simp

/-- C1 amended (proved): for a `MultiDiscrete` space declaring exactly one
range per active sub-space (as construction always does), `_set_action` never
raises the ActionShapeError: the split yields one (possibly truncated)
sub-segment per declared range, one sub-segment is consumed for the physical
sub-space iff the agent is movable and one for the communication sub-space
iff it is not silent, and the final emptiness check is over the remaining
sub-segments — not over elements — so flat vectors longer than the declared
element count decode without error, the extra elements silently dropped. -/
theorem setAction_multiDiscrete_no_shape (cfg : DecCfg) (dimP dimC : ℕ)
    (movable silent : Bool) (accel : Option ℚ) (prevU prevC : List ℚ)
    (ranges : List (ℤ × ℤ)) (action : List ℚ)
    (hlen : ranges.length = activeCount movable silent) :
    setAction cfg dimP dimC movable silent accel prevU prevC
      (.multiDiscrete ranges) action ≠ .error .actionShapeError := by
  have hseg : (splitAction (.multiDiscrete ranges) action).length
      = activeCount movable silent := by
    simp only [splitAction, splitSegs_length, sizesOf, List.length_map]
    exact hlen
  simp only [setAction]
  generalize hg : splitAction (ActSpace.multiDiscrete ranges) action = segs at hseg ⊢
  cases movable with
  | false =>
    cases silent with
    | true =>
      simp only [activeCount] at hseg
      norm_num at hseg
      subst hseg
      simp
    | false =>
      simp only [activeCount] at hseg
      norm_num at hseg
      rcases List.length_eq_one.mp hseg with ⟨s0, rfl⟩
      simp only [Bool.false_eq_true, if_false]
      cases hc : commCommand cfg s0 with
      | error e =>
        simp only [hc]
        intro h
        injection h with h2
        subst h2
        exact commCommand_ne_shape cfg s0 hc
      | ok c =>
        simp [hc]
  | true =>
    cases silent with
    | true =>
      simp only [activeCount] at hseg
      norm_num at hseg
      rcases List.length_eq_one.mp hseg with ⟨s0, rfl⟩
      simp only [if_true]
      cases hp : physCommand cfg dimP accel s0 with
      | error e =>
        simp only [hp]
        intro h
        injection h with h2
        subst h2
        exact physCommand_ne_shape cfg dimP accel s0 hp
      | ok u =>
        simp [hp]
    | false =>
      simp only [activeCount] at hseg
      norm_num at hseg
      rcases segs with _ | ⟨s0, _ | ⟨s1, _ | ⟨s2, t⟩⟩⟩
      · simp at hseg
      · simp at hseg
      · simp only [if_true, Bool.false_eq_true, if_false]
        cases hp : physCommand cfg dimP accel s0 with
        | error e =>
          simp only [hp]
          intro h
          injection h with h2
          subst h2
          exact physCommand_ne_shape cfg dimP accel s0 hp
        | ok u =>
          simp only [hp]
          cases hc : commCommand cfg s1 with
          | error e =>
            simp only [hc]
            intro h
            injection h with h2
            subst h2
            exact commCommand_ne_shape cfg s1 hc
          | ok c =>
            simp [hc]
      · simp at hseg

/-- Witness for C1 amended: the over-long action of the counterexample, with
its two declared ranges matching the two active sub-spaces, cannot produce
the ActionShapeError. -/
theorem setAction_multiDiscrete_no_shape_witness :
    setAction ⟨true, false, false⟩ 2 2 true false none [] []
      (.multiDiscrete [(0, 4), (0, 1)]) [0, 1, 0, 0, 0, 1, 0, 99]
      ≠ .error .actionShapeError :=
  setAction_multiDiscrete_no_shape ⟨true, false, false⟩ 2 2 true false none
    [] [] [(0, 4), (0, 1)] [0, 1, 0, 0, 0, 1, 0, 99] (by decide)

/-- C6 (confirmed): a policy-controlled agent with zero active sub-spaces
(not movable and silent) makes the space composition fail — the access
`total_action_space[0]` on the empty composition raises — and the failure
aborts the whole construction loop, so it is never recovered. -/
theorem buildAgentSpace_config_error :
    (∀ (cfg : DecCfg) (dimP dimC : ℕ) (ag : Agent),
        ag.movable = false → ag.silent = true →
        buildAgentSpace cfg dimP dimC ag = .error .configError)
    ∧ (∀ (cfg : DecCfg) (dimP dimC : ℕ) (ags : List Agent),
        (∃ a ∈ ags, a.movable = false ∧ a.silent = true) →
        exceptOk (buildActionSpaces cfg dimP dimC ags) = false) := by
  have h1 : ∀ (cfg : DecCfg) (dimP dimC : ℕ) (ag : Agent),
      ag.movable = false → ag.silent = true →
      buildAgentSpace cfg dimP dimC ag = .error .configError := by
    intro cfg dimP dimC ag hm hs
    simp [buildAgentSpace, hm, hs]
  refine ⟨h1, ?_⟩
  intro cfg dimP dimC ags hex
  induction ags with
  | nil => simp at hex
  | cons b rest ih =>
    rcases hex with ⟨a, ha, hm, hs⟩
    rcases List.mem_cons.mp ha with rfl | ha2
    · simp [buildActionSpaces, h1 cfg dimP dimC a hm hs, exceptOk]
    · simp only [buildActionSpaces]
      cases hb : buildAgentSpace cfg dimP dimC b with
      | error e => simp [exceptOk]
      | ok s =>
        have hrec := ih ⟨a, ha2, hm, hs⟩
        cases hr : buildActionSpaces cfg dimP dimC rest with
        | error e => simp [exceptOk]
        | ok l =>
          rw [hr] at hrec
          simp [exceptOk] at hrec

/-- Witness for C6: a non-movable silent agent fails composition, and a
one-agent construction with it fails. -/
theorem buildAgentSpace_config_error_witness :
    buildAgentSpace ⟨true, false, false⟩ 2 2 ⟨false, true, none, 1, [], []⟩
        = .error .configError
    ∧ exceptOk (buildActionSpaces ⟨true, false, false⟩ 2 2
        [⟨false, true, none, 1, [], []⟩]) = false :=
  ⟨buildAgentSpace_config_error.1 ⟨true, false, false⟩ 2 2 _ rfl rfl,
   buildAgentSpace_config_error.2 ⟨true, false, false⟩ 2 2 _
     ⟨⟨false, true, none, 1, [], []⟩, by simp, rfl, rfl⟩⟩

lemma resetEnv_numEpisodes {P Info Art : Type} (sc : Scenario P Info Art)
    (env : EnvState P Art) (o : List (List ℚ)) (env2 : EnvState P Art)
    (h : resetEnv sc env = .ok (o, env2)) :
    env2.world.numEpisodes = env.world.numEpisodes + 1 := by
  unfold resetEnv at h
  split at h
  · cases h
  · simp only [Except.ok.injEq, Prod.mk.injEq] at h
    rw [← h.2]

lemma stepEnv_numEpisodes {P Info Art : Type} (sc : Scenario P Info Art)
    (env : EnvState P Art) (acts : List (List ℚ)) (os : List (List ℚ))
    (rs : List ℚ) (ds : List Bool) (infos : List Info) (env2 : EnvState P Art)
    (h : stepEnv sc env acts = .ok (os, rs, ds, infos, env2)) :
    env2.world.numEpisodes = env.world.numEpisodes := by
  simp only [stepEnv] at h
  split at h
  · cases h
  · split at h
    · cases h
    · simp only [Except.ok.injEq, Prod.mk.injEq] at h
      rw [← h.2.2.2.2]

lemma runSteps_numEpisodes {P Info Art : Type} (sc : Scenario P Info Art)
    (l : List (List (List ℚ))) (env : EnvState P Art) :
    (runSteps sc l env).world.numEpisodes = env.world.numEpisodes := by
  induction l generalizing env with
  | nil => rfl
  | cons acts rest ih =>
    have step1 : runSteps sc (acts :: rest) env
        = runSteps sc rest (match stepEnv sc env acts with
            | .ok (_, _, _, _, e2) => e2
            | .error _ => env) := rfl
    rw [step1]
    cases hs : stepEnv sc env acts with
    | error e =>
      simp only [hs]
      exact ih env
    | ok out =>
      obtain ⟨os, rs, ds, infos, env2⟩ := out
      simp only [hs]
      rw [ih env2]
      exact stepEnv_numEpisodes sc env acts os rs ds infos env2 hs

/-- C8 (confirmed): every successful `reset()` increments the episode counter of the World by exactly one, no `step()` call changes it, and after any number of
step calls followed by one reset the counter is exactly one greater than
after the previous reset. -/
theorem numEpisodes_lifecycle :
    (∀ {P Info Art : Type} (sc : Scenario P Info Art) (env : EnvState P Art)
        (o : List (List ℚ)) (env2 : EnvState P Art),
        resetEnv sc env = .ok (o, env2) →
        env2.world.numEpisodes = env.world.numEpisodes + 1)
    ∧ (∀ {P Info Art : Type} (sc : Scenario P Info Art) (env : EnvState P Art)
        (acts : List (List ℚ)) (os : List (List ℚ)) (rs : List ℚ)
        (ds : List Bool) (infos : List Info) (env2 : EnvState P Art),
        stepEnv sc env acts = .ok (os, rs, ds, infos, env2) →
        env2.world.numEpisodes = env.world.numEpisodes)
    ∧ (∀ {P Info Art : Type} (sc : Scenario P Info Art) (env : EnvState P Art)
        (l : List (List (List ℚ))) (o1 o2 : List (List ℚ))
        (env1 env2 : EnvState P Art),
        resetEnv sc env = .ok (o1, env1) →
        resetEnv sc (runSteps sc l env1) = .ok (o2, env2) →
        env2.world.numEpisodes = env1.world.numEpisodes + 1) :=
  ⟨fun sc env o env2 h => resetEnv_numEpisodes sc env o env2 h,
   fun sc env acts os rs ds infos env2 h =>
     stepEnv_numEpisodes sc env acts os rs ds infos env2 h,
   fun sc env l o1 o2 env1 env2 _ h2 =>
     (resetEnv_numEpisodes sc _ o2 env2 h2).trans
       (by rw [runSteps_numEpisodes])⟩

/-- A concrete minimal scenario with a reset callback and no reward, obs or
done callbacks. -/
def scU : Scenario Unit Unit Unit :=
  ⟨some (fun p => (p, ())), none, none, none, fun _ p => p⟩

/-- A concrete environment with zero policy agents. -/
def envU : EnvState Unit Unit :=
  { world := { numEpisodes := 0, agents := [], allAgentCount := 0, phys := () },
    cfg := ⟨true, false, false⟩, dimP := 2, dimC := 0, sharedReward := false,
    n := 0, actionSpaces := [], rewardListAll := [], artifacts := none }

/-- The state `envU` after one reset. -/
def envU1 : EnvState Unit Unit :=
  { envU with world := { envU.world with numEpisodes := 1 }, artifacts := some () }

/-- The state `envU` after two resets. -/
def envU2 : EnvState Unit Unit :=
  { envU with world := { envU.world with numEpisodes := 2 }, artifacts := some () }

/-- Witness for C8: reset, one step, reset on a concrete environment leaves
the episode counter one greater than after the first reset. -/
theorem numEpisodes_lifecycle_witness :
    envU2.world.numEpisodes = envU1.world.numEpisodes + 1 :=
  numEpisodes_lifecycle.2.2 scU envU [[]] [] [] envU1 envU2 rfl rfl

/-- A scenario with every callback absent. -/
def scNone : Scenario Unit Unit Unit :=
  ⟨none, none, none, none, fun _ p => p⟩

/-- C9 counterexample: on an environment with zero policy agents, `step()`
returns successfully although both the reward and the done callback are
absent — the per-agent loop never runs, so no pair-unpacking ever happens and
nothing is raised, contradicting the claim for every environment. -/
theorem step_zero_agents_succeeds :
    scNone.rewardCb = none ∧ scNone.doneCb = none
    ∧ stepEnv scNone envU [] = .ok ([], [], [], [], envU) :=
  ⟨rfl, rfl, rfl⟩

lemma decodeAllAux_ok_length (cfg : DecCfg) (dimP dimC : ℕ)
    (spaces : List ActSpace) (actions : List (List ℚ)) :
    ∀ (i : ℕ) (ags l : List Agent),
    decodeAllAux cfg dimP dimC spaces actions i ags = .ok l →
    l.length = ags.length := by
  intro i ags
  induction ags generalizing i with
  | nil =>
    intro l h
    simp only [decodeAllAux, Except.ok.injEq] at h
    subst h
    rfl
  | cons a rest ih =>
    intro l h
    simp only [decodeAllAux] at h
    split at h
    · cases h
    · split at h
      · cases h
      · split at h
        · cases h
        · split at h
          · cases h
          · rename_i l2 heq
            simp only [Except.ok.injEq] at h
            subst h
            simp [ih (i + 1) l2 heq]

lemma collectAux_missing_fails {P Info Art : Type} (sc : Scenario P Info Art)
    (w : WState P) (i : ℕ) (a : Agent) (rest : List Agent)
    (rla : List (List (List ℚ)))
    (hcb : sc.rewardCb = none ∨ sc.doneCb = none) :
    exceptOk (collectAux sc w i (a :: rest) rla) = false := by
  rcases hcb with hr | hd
  · simp [collectAux, getReward, hr, unpackR, exceptOk]
  · simp only [collectAux]
    cases hur : unpackR (getReward sc a w) with
    | error e => simp [exceptOk]
    | ok p =>
      obtain ⟨r, rlist⟩ := p
      simp [getDone, hd, unpackD, exceptOk]

/-- C9 amended (proved): on an environment with at least one policy agent,
every `step()` call with the reward callback or the done callback absent
fails before returning — the absent reward callback makes `_get_reward`
return the bare `0.0` whose pair-unpacking raises, and the absent done
callback makes `_get_done` return the bare `False` whose pair-unpacking
raises — so such a `step()` succeeds only when both callbacks are provided. -/
theorem step_missing_callback_fails {P Info Art : Type}
    (sc : Scenario P Info Art) (env : EnvState P Art)
    (acts : List (List ℚ)) (hne : env.world.agents ≠ [])
    (hcb : sc.rewardCb = none ∨ sc.doneCb = none) :
    exceptOk (stepEnv sc env acts) = false := by
  simp only [stepEnv]
  cases hdec : decodeAllAux env.cfg env.dimP env.dimC env.actionSpaces acts 0
      env.world.agents with
  | error e => simp [hdec, exceptOk]
  | ok ags2 =>
    have hlen := decodeAllAux_ok_length env.cfg env.dimP env.dimC
      env.actionSpaces acts 0 env.world.agents ags2 hdec
    simp only [hdec]
    cases ags2 with
    | nil =>
      exact absurd (List.length_eq_zero.mp hlen.symm) hne
    | cons b brest =>
      split
      · simp [exceptOk]
      · rename_i out heq
        have hc := collectAux_missing_fails sc
          { numEpisodes := env.world.numEpisodes, agents := b :: brest,
            allAgentCount := env.world.allAgentCount,
            phys := sc.wstep (b :: brest) env.world.phys }
          0 b brest env.rewardListAll hcb
        rw [heq] at hc
        simp [exceptOk] at hc

/-- A concrete movable, silent policy agent. -/
def agA : Agent := ⟨true, true, none, 1, [], []⟩

/-- A concrete one-agent environment. -/
def envA : EnvState Unit Unit :=
  { world := { numEpisodes := 0, agents := [agA], allAgentCount := 1, phys := () },
    cfg := ⟨true, false, false⟩, dimP := 2, dimC := 0, sharedReward := false,
    n := 1, actionSpaces := [.discrete 5], rewardListAll := [[]],
    artifacts := none }

/-- Witness for C9 amended: with one agent and both callbacks absent,
`step()` fails. -/
theorem step_missing_callback_fails_witness :
    exceptOk (stepEnv scNone envA [[0, 0, 0, 0, 0]]) = false :=
  step_missing_callback_fails scNone envA [[0, 0, 0, 0, 0]]
    (by simp [envA]) (Or.inl rfl)
